import Mathlib

/-!
Verification of the webscraper's DOM-diff algorithm and fetch/cache/diff
pipeline (src/webscraper.py) against its specification.

The embedding is shallow:

* `Node` models a parsed BeautifulSoup DOM tree: an element (`Node.tag`) has
  a tag name, an attribute list and an ordered list of children, which may be
  elements or text nodes (`Node.text`, modelling `NavigableString`).
  Structural equality of trees (bs4 `Tag.__eq__`: same name, attributes and
  contents, recursively) is Lean equality on `Node`.
* `compare_html` models `compare_html` (lines 66-84).  Python's
  `findChildren(recursive=False)` returns the immediate *element* children
  only (text nodes are skipped); this is `tagChildren`.
* `diff_url` (lines 87-114) is modelled as a pure function: the HTTP fetch
  becomes a function `fetch : String → FetchResult` (a `client.get` +
  `raise_for_status` either yields the body text or raises), the external
  HTML library becomes a function `parse : String → Node`, the two
  `datetime.now()` calls become the parameter `now`, and the in-place
  mutation of the shared cache dict becomes the returned updated cache.
* `do_diff` (lines 116-147) threads the cache through the per-URL tasks and
  either returns the aggregated results together with the cache mapping that
  line 147 persists, or propagates the first fetch exception out of
  `asyncio.gather` (its default re-raises and the `write_text` on line 147
  is skipped).
* Cache persistence (`json.dumps` with `EnhancedJSONEncoder`, line 147, and
  `json.loads`, line 122) is modelled at the JSON-value level by `Json`,
  `encodeCache` and `decodeCache`; the byte-level JSON printer/parser is the
  external `json` library.
-/

/-- A parsed HTML tree: an element with tag name, attributes and ordered
children, or a text node.  Models a BeautifulSoup `Tag` / `NavigableString`;
Lean equality on `Node` models bs4 structural equality. -/
inductive Node where
  | tag (name : String) (attrs : List (String × String)) (children : List Node)
  | text (s : String)

mutual
def Node.decEq : (a b : Node) → Decidable (a = b)
  | .text s, .text t =>
    if h : s = t then .isTrue (by rw [h]) else .isFalse (by intro hc; injection hc; contradiction)
  | .tag n₁ a₁ c₁, .tag n₂ a₂ c₂ =>
    if hn : n₁ = n₂ then
      if ha : a₁ = a₂ then
        match Node.decEqList c₁ c₂ with
        | .isTrue hc => .isTrue (by rw [hn, ha, hc])
        | .isFalse hc => .isFalse (by intro h; injection h; contradiction)
      else .isFalse (by intro h; injection h; contradiction)
    else .isFalse (by intro h; injection h; contradiction)
  | .tag .., .text _ => .isFalse (by intro h; injection h)
  | .text _, .tag .. => .isFalse (by intro h; injection h)

def Node.decEqList : (a b : List Node) → Decidable (a = b)
  | [], [] => .isTrue rfl
  | [], _ :: _ => .isFalse (by intro h; injection h)
  | _ :: _, [] => .isFalse (by intro h; injection h)
  | x :: xs, y :: ys =>
    match Node.decEq x y, Node.decEqList xs ys with
    | .isTrue h1, .isTrue h2 => .isTrue (by rw [h1, h2])
    | .isFalse h1, _ => .isFalse (by intro h; injection h; contradiction)
    | _, .isFalse h2 => .isFalse (by intro h; injection h; contradiction)
end

instance : DecidableEq Node := Node.decEq

/-- Whether a node is an element (a bs4 `Tag`) rather than a text node. -/
def Node.isTag : Node → Bool
  | .tag .. => true
  | .text _ => false

/-- The immediate element children of a node: models
`findChildren(recursive=False)` (lines 75-76), which yields the direct `Tag`
children and skips text nodes.  A text node has no children. -/
def tagChildren : Node → List Node
  | .tag _ _ cs => cs.filter Node.isTag
  | .text _ => []

mutual
def Node.size : Node → Nat
  | .tag _ _ cs => 1 + Node.sizeList cs
  | .text _ => 1

def Node.sizeList : List Node → Nat
  | [] => 0
  | c :: cs => Node.size c + Node.sizeList cs
end

theorem size_le_sizeList {x : Node} {cs : List Node} (h : x ∈ cs) :
    Node.size x ≤ Node.sizeList cs := by
  induction cs with
  | nil => cases h
  | cons c cs ih =>
    rcases List.mem_cons.mp h with rfl | h
    · simp only [Node.sizeList]; omega
    · have := ih h
      simp only [Node.sizeList]; omega

theorem size_lt_of_mem_tagChildren {x n : Node} (h : x ∈ tagChildren n) :
    Node.size x < Node.size n := by
  cases n with
  | text s => simp [tagChildren] at h
  | tag t a cs =>
    have hx : x ∈ cs := List.mem_of_mem_filter h
    have := size_le_sizeList hx
    simp only [Node.size]; omega

/-- A pair of corresponding nodes that differ between the old and the new
tree (the `DifferentiatingElement` dataclass, lines 14-19). -/
structure DifferentiatingElement where
  old : Node
  new : Node
deriving DecidableEq

/-- The recursive DOM diff (`compare_html`, lines 66-84): equal trees yield
no differences; otherwise the immediate element children of both sides are
paired positionally by `zip` (truncating at the shorter sequence, line 77)
and diffed recursively; if that yields nothing, the divergence is attributed
to the current pair of nodes (lines 80-82). -/
def compare_html (old_html new_html : Node) : List DifferentiatingElement :=
  if old_html = new_html then
    []
  else
    let pairs := (tagChildren old_html).zip (tagChildren new_html)
    let diff := pairs.attach.flatMap (fun p => compare_html p.1.1 p.1.2)
    if diff.isEmpty then [⟨old_html, new_html⟩] else diff
termination_by Node.size old_html + Node.size new_html
decreasing_by
  obtain ⟨⟨po, pn⟩, hp⟩ := p
  have h1 := (List.of_mem_zip hp).1
  have h2 := (List.of_mem_zip hp).2
  have := size_lt_of_mem_tagChildren h1
  have := size_lt_of_mem_tagChildren h2
  simp only at *
  omega

/-- The concatenation of the recursive diffs of a list of child pairs: the
loop of lines 77-78 accumulating into `diff`. -/
def compareChildren (ps : List (Node × Node)) : List DifferentiatingElement :=
  ps.flatMap (fun p => compare_html p.1 p.2)

/-- A cache entry for a URL (the `CacheEntry` dataclass, lines 39-47). -/
structure CacheEntry where
  html : String
  timestamp : String
deriving DecidableEq

/-- The cache: a mapping from URL to `CacheEntry` (line 50), modelled as an
insertion-ordered association list like a Python dict. -/
abbrev Cache := List (String × CacheEntry)

/-- Dict lookup, `cache.get(url)` (line 96). -/
def cacheLookup : Cache → String → Option CacheEntry
  | [], _ => none
  | (k, v) :: rest, u => if k = u then some v else cacheLookup rest u

/-- Dict assignment, `cache[url] = entry` (line 107): overwrites an existing
key in place, otherwise appends (Python dicts keep insertion order). -/
def cacheInsert : Cache → String → CacheEntry → Cache
  | [], u, e => [(u, e)]
  | (k, v) :: rest, u, e =>
    if k = u then (u, e) :: rest else (k, v) :: cacheInsert rest u e

/-- The diff report for one URL (the `UrlDiff` dataclass, lines 22-36). -/
structure UrlDiff where
  url : String
  differentiating_elements : List DifferentiatingElement
  old_timestamp : String
  new_timestamp : String
deriving DecidableEq

/-- A fetch failure: a network error raised by `client.get` or a non-success
HTTP status raised by `response.raise_for_status()` (lines 91-92). -/
inductive FetchError where
  | network
  | httpStatus (code : Nat)
deriving DecidableEq

/-- The outcome of fetching one URL: the response body text, or an
exception. -/
inductive FetchResult where
  | success (body : String)
  | failure (e : FetchError)
deriving DecidableEq

/-- The sentinel timestamp for a URL never seen before: models Python's
`datetime.min`, the default of `old_cache_entry.get('timestamp', datetime.min)`
on line 112. -/
def datetimeMin : String := "0001-01-01T00:00:00"

/-- One per-URL task (`diff_url`, lines 87-114): fetch the URL (propagating
a fetch exception), read the URL's old entry from the cache (absent entries
give empty content and the `datetime.min` timestamp), parse old and new
content, diff them, store the new content in the cache, and return the
updated cache together with the `UrlDiff`. -/
def diff_url (fetch : String → FetchResult) (parse : String → Node)
    (url : String) (cache : Cache) (now : String) :
    Except FetchError (Cache × UrlDiff) :=
  match fetch url with
  | .failure e => .error e
  | .success body =>
    let old_cache_entry := cacheLookup cache url
    let old_html_str := (old_cache_entry.map CacheEntry.html).getD ""
    let old_html := parse old_html_str
    let new_html := parse body
    let differentiating_elements := compare_html old_html new_html
    let cache' := cacheInsert cache url ⟨body, now⟩
    .ok (cache',
      { url := url
        differentiating_elements := differentiating_elements
        old_timestamp := (old_cache_entry.map CacheEntry.timestamp).getD datetimeMin
        new_timestamp := now })

/-- One cycle over the given URLs (`do_diff`, lines 116-147), starting from
the loaded cache: every URL is fetched and diffed with the shared cache
threaded through (each task writes only its own key, line 107); if any task
raises, `asyncio.gather` re-raises it, no results are returned and line 147
never persists the cache.  On success the aggregated `UrlDiff` list and the
cache mapping persisted by line 147 are returned. -/
def do_diff (fetch : String → FetchResult) (parse : String → Node)
    (now : String) : List String → Cache → Except FetchError (List UrlDiff × Cache)
  | [], cache => .ok ([], cache)
  | url :: rest, cache =>
    match diff_url fetch parse url cache now with
    | .error e => .error e
    | .ok (cache', d) =>
      match do_diff fetch parse now rest cache' with
      | .error e => .error e
      | .ok (ds, cacheF) => .ok (d :: ds, cacheF)

/-- A JSON value, as far as the cache file needs: the `json` library's
printer and parser are external, so persistence is modelled at the JSON
value level. -/
inductive Json where
  | str (s : String)
  | obj (fields : List (String × Json))

/-- Field lookup in a JSON object, as `dict.get` after `json.loads`. -/
def lookupField : List (String × Json) → String → Option Json
  | [], _ => none
  | (k, v) :: rest, f => if k = f then some v else lookupField rest f

/-- Serialization of one cache entry: `EnhancedJSONEncoder` (lines 54-63)
turns the `CacheEntry` dataclass into `dataclasses.asdict`, i.e. an object
with the `html` and `timestamp` fields. -/
def encodeCacheEntry (e : CacheEntry) : Json :=
  .obj [("html", .str e.html), ("timestamp", .str e.timestamp)]

/-- Serialization of the whole cache (line 147): one JSON object keyed by
URL. -/
def encodeCache (c : Cache) : Json :=
  .obj (c.map (fun kv => (kv.1, encodeCacheEntry kv.2)))

/-- Reading one persisted entry back: the loaded dict's `html` and
`timestamp` values (as accessed on lines 97 and 112). -/
def decodeCacheEntry (j : Json) : Option CacheEntry :=
  match j with
  | .obj fields =>
    match lookupField fields "html", lookupField fields "timestamp" with
    | some (.str h), some (.str t) => some ⟨h, t⟩
    | _, _ => none
  | .str _ => none

def decodeEntries : List (String × Json) → Option Cache
  | [] => some []
  | (k, j) :: rest =>
    match decodeCacheEntry j, decodeEntries rest with
    | some e, some c => some ((k, e) :: c)
    | _, _ => none

/-- Reading the persisted mapping back into a cache. -/
def decodeCache (j : Json) : Option Cache :=
  match j with
  | .obj fields => decodeEntries fields
  | .str _ => none

/-- The state the cache file can be in when a cycle starts. -/
inductive FileState where
  | absent
  | unreadable
  | malformed
  | validJson (j : Json)

/-- An exception escaping the cache-loading step. -/
inductive LoadError where
  | osError
  | jsonDecodeError
deriving DecidableEq

/-- The cache-loading step (lines 120-124): `read_text` raises
`FileNotFoundError` for an absent file, which the `except` clause turns into
the empty mapping; an unreadable file raises a different `OSError` and a
file that is not valid JSON makes `json.loads` raise `JSONDecodeError`,
neither of which the `except FileNotFoundError` clause catches. -/
def loadCache : FileState → Except LoadError Json
  | .absent => .ok (Json.obj [])
  | .unreadable => .error .osError
  | .malformed => .error .jsonDecodeError
  | .validJson j => .ok j

/-- One level of tree context: an element whose child list surrounds a hole
with fixed siblings on both sides. -/
structure Frame where
  tag : String
  attrs : List (String × String)
  before : List Node
  after : List Node

/-- Plugging a subtree into a stack of frames, outermost frame first. -/
def plug : List Frame → Node → Node
  | [], x => x
  | f :: fs, x => Node.tag f.tag f.attrs (f.before ++ plug fs x :: f.after)

theorem compare_html_eq (o n : Node) :
    compare_html o n =
      if o = n then []
      else
        if (compareChildren ((tagChildren o).zip (tagChildren n))).isEmpty
        then [⟨o, n⟩]
        else compareChildren ((tagChildren o).zip (tagChildren n)) := by
  rw [compare_html.eq_def]
  simp only [compareChildren, List.flatMap_subtype, List.unattach_attach]

theorem compareChildren_nil : compareChildren [] = [] := rfl

theorem compareChildren_cons (p : Node × Node) (rest : List (Node × Node)) :
    compareChildren (p :: rest) = compare_html p.1 p.2 ++ compareChildren rest := by
  simp [compareChildren]

theorem compareChildren_append (a b : List (Node × Node)) :
    compareChildren (a ++ b) = compareChildren a ++ compareChildren b := by
  simp [compareChildren]

theorem compareChildren_eq_nil_iff (ps : List (Node × Node)) :
    compareChildren ps = [] ↔ ∀ p ∈ ps, compare_html p.1 p.2 = [] := by
  simp [compareChildren, List.flatMap_eq_nil_iff]

theorem compare_html_self (T : Node) : compare_html T T = [] := by
  rw [compare_html_eq]
  simp

theorem compare_html_ne_nil {o n : Node} (h : o ≠ n) : compare_html o n ≠ [] := by
  intro hc
  rw [compare_html_eq, if_neg h] at hc
  by_cases hd : (compareChildren ((tagChildren o).zip (tagChildren n))).isEmpty
  · rw [if_pos hd] at hc
    exact List.cons_ne_nil _ _ hc
  · rw [if_neg hd] at hc
    exact hd (by rw [hc]; rfl)

theorem compare_html_pair_of_no_child_diff {o n : Node} (h : o ≠ n)
    (hd : compareChildren ((tagChildren o).zip (tagChildren n)) = []) :
    compare_html o n = [⟨o, n⟩] := by
  rw [compare_html_eq, if_neg h]
  simp [hd]

theorem mem_zip_self {p : Node × Node} {xs : List Node} (h : p ∈ xs.zip xs) :
    p.1 = p.2 := by
  induction xs with
  | nil => cases h
  | cons x xs ih =>
    rcases List.mem_cons.mp h with rfl | h
    · rfl
    · exact ih h

theorem compareChildren_zip_self (xs : List Node) :
    compareChildren (xs.zip xs) = [] := by
  rw [compareChildren_eq_nil_iff]
  intro p hp
  rw [mem_zip_self hp]
  exact compare_html_self _

theorem compare_html_pair_of_children_eq {o n : Node} (h : o ≠ n)
    (hc : tagChildren o = tagChildren n) :
    compare_html o n = [⟨o, n⟩] := by
  apply compare_html_pair_of_no_child_diff h
  rw [hc]
  exact compareChildren_zip_self _

theorem zip_self_append (xs ys : List Node) : xs.zip (xs ++ ys) = xs.zip xs := by
  induction xs with
  | nil => simp
  | cons x xs ih => simp [ih]

theorem zip_same_append (xs : List Node) (x y : Node) (ys : List Node) :
    (xs ++ x :: ys).zip (xs ++ y :: ys) = xs.zip xs ++ (x, y) :: ys.zip ys := by
  induction xs with
  | nil => simp
  | cons a xs ih => simp [ih]

theorem sizeList_append (xs ys : List Node) :
    Node.sizeList (xs ++ ys) = Node.sizeList xs + Node.sizeList ys := by
  induction xs with
  | nil => simp [Node.sizeList]
  | cons x xs ih => simp [Node.sizeList, ih]; omega

theorem size_plug_le (fs : List Frame) (x : Node) :
    Node.size x ≤ Node.size (plug fs x) := by
  induction fs with
  | nil => exact le_rfl
  | cons f fs ih =>
    simp only [plug, Node.size, sizeList_append, Node.sizeList]
    omega

theorem plug_cons_ne (f : Frame) (fs : List Frame) (x : Node) :
    plug (f :: fs) x ≠ x := by
  intro h
  have hsz := congrArg Node.size h
  have hle := size_plug_le fs x
  simp only [plug, Node.size, sizeList_append, Node.sizeList] at hsz
  omega

theorem plug_isTag (fs : List Frame) (x : Node) (h : x.isTag = true) :
    (plug fs x).isTag = true := by
  cases fs with
  | nil => exact h
  | cons f fs => rfl

theorem plug_inj : ∀ (fs : List Frame) {o n : Node}, plug fs o = plug fs n → o = n := by
  intro fs
  induction fs with
  | nil => exact fun h => h
  | cons f fs ih =>
    intro o n h
    simp only [plug] at h
    injection h with _ _ hc
    exact ih (List.cons.injEq .. ▸ (List.append_cancel_left hc)).1

theorem tagChildren_plug_cons (f : Frame) (fs : List Frame) (x : Node)
    (hx : x.isTag = true) :
    tagChildren (plug (f :: fs) x) =
      f.before.filter Node.isTag ++ plug fs x :: f.after.filter Node.isTag := by
  simp [plug, tagChildren, List.filter_append, List.filter_cons, plug_isTag fs x hx]

theorem cacheLookup_insert_self (c : Cache) (u : String) (e : CacheEntry) :
    cacheLookup (cacheInsert c u e) u = some e := by
  induction c with
  | nil => simp [cacheInsert, cacheLookup]
  | cons kv rest ih =>
    obtain ⟨k, v⟩ := kv
    by_cases hk : k = u
    · simp [cacheInsert, hk, cacheLookup]
    · simp [cacheInsert, hk, cacheLookup, ih]

theorem cacheLookup_insert_ne (c : Cache) (u : String) (e : CacheEntry)
    (u' : String) (h : u' ≠ u) :
    cacheLookup (cacheInsert c u e) u' = cacheLookup c u' := by
  have h' : ¬u = u' := fun hc => h hc.symm
  induction c with
  | nil => simp [cacheInsert, cacheLookup, h']
  | cons kv rest ih =>
    obtain ⟨k, v⟩ := kv
    by_cases hk : k = u
    · subst hk
      simp [cacheInsert, cacheLookup, h']
    · simp [cacheInsert, hk, cacheLookup, ih]

theorem diff_url_failure (fetch : String → FetchResult) (parse : String → Node)
    (url : String) (cache : Cache) (now : String) (e : FetchError)
    (h : fetch url = .failure e) :
    diff_url fetch parse url cache now = .error e := by
  simp [diff_url, h]

theorem diff_url_success (fetch : String → FetchResult) (parse : String → Node)
    (url : String) (cache : Cache) (now : String) (body : String)
    (h : fetch url = .success body) :
    diff_url fetch parse url cache now =
      .ok (cacheInsert cache url ⟨body, now⟩,
        { url := url
          differentiating_elements :=
            compare_html (parse (((cacheLookup cache url).map CacheEntry.html).getD ""))
              (parse body)
          old_timestamp := ((cacheLookup cache url).map CacheEntry.timestamp).getD datetimeMin
          new_timestamp := now }) := by
  simp [diff_url, h]

theorem decode_encode_entry (e : CacheEntry) :
    decodeCacheEntry (encodeCacheEntry e) = some e := by
  simp [encodeCacheEntry, decodeCacheEntry, lookupField]

/-- C2: for every pair of structurally equal trees (in particular for
`compare_html T T`), the diff is the empty list: line 69 compares the trees
and line 71 returns `[]`. -/
theorem compare_html_reflexive (o n : Node) (h : o = n) : compare_html o n = [] := by
  subst h
  exact compare_html_self o

theorem compare_html_reflexive_witness :
    compare_html (Node.text "x") (Node.text "x") = [] :=
  compare_html_reflexive _ _ rfl

/-- C1: on structurally unequal trees, `compare_html` pairs the immediate
element children positionally up to the shorter sequence; if every paired
child is structurally equal (in particular when either node has no
children, so the zip is empty), the result is exactly the single pair of
the current nodes; if some paired child differs, the result is the
concatenation of the recursive diffs of the paired children. -/
theorem compare_html_unequal_behavior (o n : Node) (h : o ≠ n) :
    compare_html o n =
      if ∀ p ∈ (tagChildren o).zip (tagChildren n), p.1 = p.2
      then [⟨o, n⟩]
      else ((tagChildren o).zip (tagChildren n)).flatMap (fun p => compare_html p.1 p.2) := by
  by_cases hall : ∀ p ∈ (tagChildren o).zip (tagChildren n), p.1 = p.2
  · rw [if_pos hall]
    exact compare_html_pair_of_no_child_diff h
      ((compareChildren_eq_nil_iff _).2
        (fun p hp => by rw [hall p hp]; exact compare_html_self _))
  · rw [if_neg hall]
    push_neg at hall
    obtain ⟨p, hp, hne⟩ := hall
    have hnil : compareChildren ((tagChildren o).zip (tagChildren n)) ≠ [] :=
      fun hf => compare_html_ne_nil hne ((compareChildren_eq_nil_iff _).1 hf p hp)
    have hEmpty : (compareChildren ((tagChildren o).zip (tagChildren n))).isEmpty = false := by
      cases he : (compareChildren ((tagChildren o).zip (tagChildren n))).isEmpty
      · rfl
      · exact absurd (List.isEmpty_iff.mp he) hnil
    rw [compare_html_eq, if_neg h, hEmpty]
    simp [compareChildren]

theorem compare_html_unequal_behavior_witness :
    Node.text "a" ≠ Node.text "b" ∧
    compare_html (Node.text "a") (Node.text "b") =
      (if ∀ p ∈ (tagChildren (Node.text "a")).zip (tagChildren (Node.text "b")), p.1 = p.2
       then [⟨Node.text "a", Node.text "b"⟩]
       else ((tagChildren (Node.text "a")).zip (tagChildren (Node.text "b"))).flatMap
         (fun p => compare_html p.1 p.2)) :=
  ⟨by decide, compare_html_unequal_behavior _ _ (by decide)⟩

/-- C3: when `new` is `old` plus one extra trailing child and the original
children are untouched, the positional pairing truncates at the shorter
(old) child sequence: every aligned pair diffs to the empty list, the whole
diff is the single root pair, and the appended child is not itself reported
in any returned pair. -/
theorem compare_html_trailing_child_ignored (t : String) (a : List (String × String))
    (cs : List Node) (c : Node) :
    (∀ p ∈ (tagChildren (Node.tag t a cs)).zip (tagChildren (Node.tag t a (cs ++ [c]))),
        compare_html p.1 p.2 = [])
    ∧ compare_html (Node.tag t a cs) (Node.tag t a (cs ++ [c])) =
        [⟨Node.tag t a cs, Node.tag t a (cs ++ [c])⟩]
    ∧ ∀ p ∈ compare_html (Node.tag t a cs) (Node.tag t a (cs ++ [c])), p.new ≠ c := by
  have hzip : (tagChildren (Node.tag t a cs)).zip (tagChildren (Node.tag t a (cs ++ [c])))
      = (cs.filter Node.isTag).zip (cs.filter Node.isTag) := by
    simp only [tagChildren, List.filter_append]
    exact zip_self_append _ _
  have hne : Node.tag t a cs ≠ Node.tag t a (cs ++ [c]) := by
    intro h
    injection h with _ _ hc
    have := congrArg List.length hc
    simp at this
  have hpair : compare_html (Node.tag t a cs) (Node.tag t a (cs ++ [c])) =
      [⟨Node.tag t a cs, Node.tag t a (cs ++ [c])⟩] := by
    apply compare_html_pair_of_no_child_diff hne
    rw [hzip]
    exact compareChildren_zip_self _
  refine ⟨?_, hpair, ?_⟩
  · intro p hp
    rw [hzip] at hp
    rw [mem_zip_self hp]
    exact compare_html_self _
  · intro p hp
    rw [hpair, List.mem_singleton] at hp
    subst hp
    show Node.tag t a (cs ++ [c]) ≠ c
    intro hcontra
    have hsz := congrArg Node.size hcontra
    simp only [Node.size, sizeList_append, Node.sizeList] at hsz
    omega

theorem compare_html_trailing_child_ignored_witness :
    compare_html (Node.tag "div" [] [Node.tag "q" [] []])
        (Node.tag "div" [] [Node.tag "q" [] [], Node.tag "p" [] []]) =
      [⟨Node.tag "div" [] [Node.tag "q" [] []],
        Node.tag "div" [] [Node.tag "q" [] [], Node.tag "p" [] []]⟩]
    ∧ compare_html (Node.tag "q" [] []) (Node.tag "q" [] []) = []
    ∧ (⟨Node.tag "div" [] [Node.tag "q" [] []],
        Node.tag "div" [] [Node.tag "q" [] [], Node.tag "p" [] []]⟩ :
          DifferentiatingElement).new ≠ Node.tag "p" [] [] :=
  ⟨(compare_html_trailing_child_ignored "div" [] [Node.tag "q" [] []] (Node.tag "p" [] [])).2.1,
   (compare_html_trailing_child_ignored "div" [] [Node.tag "q" [] []] (Node.tag "p" [] [])).1
     (Node.tag "q" [] [], Node.tag "q" [] []) (by decide),
   (compare_html_trailing_child_ignored "div" [] [Node.tag "q" [] []] (Node.tag "p" [] [])).2.2
     ⟨Node.tag "div" [] [Node.tag "q" [] []],
      Node.tag "div" [] [Node.tag "q" [] [], Node.tag "p" [] []]⟩
     (by rw [(compare_html_trailing_child_ignored "div" [] [Node.tag "q" [] []]
          (Node.tag "p" [] [])).2.1]; exact List.mem_singleton.mpr rfl)⟩

/-- C4: a single localized divergence is reported at the closest enclosing
pair of element nodes, not at the root.  If two trees are a common context
of frames (identical tags, attributes and sibling subtrees) around an
unequal element pair whose paired element children are identical — the
situation produced by changing one text leaf below its parent element —
`compare_html` on the whole trees returns exactly that one inner pair; and
a node wrapped in at least one frame is distinct from the plugged subtree,
so the reported pair is not the root pair.  In particular, diffing
`<div><p>A</p><p>B</p></div>` against `<div><p>A</p><p>C</p></div>` yields
exactly one pair, located at the second `<p>`. -/
theorem compare_html_localizes_divergence :
    (∀ (fs : List Frame) (o n : Node), o.isTag = true → n.isTag = true → o ≠ n →
        tagChildren o = tagChildren n →
        compare_html (plug fs o) (plug fs n) = [⟨o, n⟩])
    ∧ (∀ (f : Frame) (fs : List Frame) (x : Node), plug (f :: fs) x ≠ x)
    ∧ compare_html
        (Node.tag "div" [] [Node.tag "p" [] [Node.text "A"], Node.tag "p" [] [Node.text "B"]])
        (Node.tag "div" [] [Node.tag "p" [] [Node.text "A"], Node.tag "p" [] [Node.text "C"]]) =
        [⟨Node.tag "p" [] [Node.text "B"], Node.tag "p" [] [Node.text "C"]⟩] := by
  refine ⟨?_, plug_cons_ne, ?_⟩
  · intro fs
    induction fs with
    | nil =>
      intro o n _ _ hne hch
      exact compare_html_pair_of_children_eq hne hch
    | cons f fs ih =>
      intro o n ho hn hne hch
      have hne' : plug (f :: fs) o ≠ plug (f :: fs) n := fun h => hne (plug_inj _ h)
      have hdiff : compareChildren
          ((tagChildren (plug (f :: fs) o)).zip (tagChildren (plug (f :: fs) n))) = [⟨o, n⟩] := by
        rw [tagChildren_plug_cons f fs o ho, tagChildren_plug_cons f fs n hn,
          zip_same_append, compareChildren_append, compareChildren_cons,
          compareChildren_zip_self, compareChildren_zip_self]
        simp [ih o n ho hn hne hch]
      rw [compare_html_eq, if_neg hne', hdiff]
      rfl
  · simp [compare_html_eq, compareChildren_cons, compareChildren_nil, tagChildren, Node.isTag]

theorem compare_html_localizes_divergence_witness :
    compare_html
        (plug [⟨"div", [], [Node.tag "p" [] [Node.text "A"]], []⟩]
          (Node.tag "p" [] [Node.text "B"]))
        (plug [⟨"div", [], [Node.tag "p" [] [Node.text "A"]], []⟩]
          (Node.tag "p" [] [Node.text "C"])) =
      [⟨Node.tag "p" [] [Node.text "B"], Node.tag "p" [] [Node.text "C"]⟩]
    ∧ plug [⟨"div", [], [Node.tag "p" [] [Node.text "A"]], []⟩]
        (Node.tag "p" [] [Node.text "B"]) ≠ Node.tag "p" [] [Node.text "B"] :=
  ⟨compare_html_localizes_divergence.1 _ _ _ rfl rfl (by decide) rfl,
   compare_html_localizes_divergence.2.1 _ _ _⟩

/-- C10: `compare_html` recurses only on positionally paired immediate
element children of the current nodes, each strictly smaller than its
parent, so the recursion is well-founded (the Lean model compiles by
well-founded recursion on exactly this measure) and the function satisfies
its defining equation on every pair of finite trees. -/
theorem compare_html_recursive_call_shrinks (o n oc nc : Node)
    (h : (oc, nc) ∈ (tagChildren o).zip (tagChildren n)) :
    (Node.size oc < Node.size o ∧ Node.size nc < Node.size n)
    ∧ compare_html o n =
        (if o = n then []
         else
           if (compareChildren ((tagChildren o).zip (tagChildren n))).isEmpty
           then [⟨o, n⟩]
           else compareChildren ((tagChildren o).zip (tagChildren n))) :=
  ⟨⟨size_lt_of_mem_tagChildren (List.of_mem_zip h).1,
    size_lt_of_mem_tagChildren (List.of_mem_zip h).2⟩,
   compare_html_eq o n⟩

theorem compare_html_recursive_call_shrinks_witness :
    (Node.size (Node.tag "p" [] []) < Node.size (Node.tag "div" [] [Node.tag "p" [] []])
      ∧ Node.size (Node.tag "p" [] []) < Node.size (Node.tag "body" [] [Node.tag "p" [] []]))
    ∧ compare_html (Node.tag "div" [] [Node.tag "p" [] []])
        (Node.tag "body" [] [Node.tag "p" [] []]) =
        (if Node.tag "div" [] [Node.tag "p" [] []] = Node.tag "body" [] [Node.tag "p" [] []]
         then []
         else
           if (compareChildren
             ((tagChildren (Node.tag "div" [] [Node.tag "p" [] []])).zip
               (tagChildren (Node.tag "body" [] [Node.tag "p" [] []])))).isEmpty
           then [⟨Node.tag "div" [] [Node.tag "p" [] []],
                 Node.tag "body" [] [Node.tag "p" [] []]⟩]
           else compareChildren
             ((tagChildren (Node.tag "div" [] [Node.tag "p" [] []])).zip
               (tagChildren (Node.tag "body" [] [Node.tag "p" [] []])))) :=
  compare_html_recursive_call_shrinks _ _ _ _ (by decide)

/-- C5: after a successful fetch, `diff_url` overwrites the fetched URL's
cache entry with the new content (line 107), unconditionally — the result
record is returned regardless of whether the diff list is empty — and every
other URL's entry is left unchanged. -/
theorem diff_url_updates_cache_unconditionally (fetch : String → FetchResult)
    (parse : String → Node) (url : String) (cache : Cache) (now body : String)
    (h : fetch url = .success body) :
    ∃ d : UrlDiff,
      diff_url fetch parse url cache now = .ok (cacheInsert cache url ⟨body, now⟩, d)
      ∧ cacheLookup (cacheInsert cache url ⟨body, now⟩) url = some ⟨body, now⟩
      ∧ ∀ u, u ≠ url →
          cacheLookup (cacheInsert cache url ⟨body, now⟩) u = cacheLookup cache u :=
  ⟨_, diff_url_success fetch parse url cache now body h,
   cacheLookup_insert_self cache url ⟨body, now⟩,
   fun u hu => cacheLookup_insert_ne cache url ⟨body, now⟩ u hu⟩

theorem diff_url_updates_cache_unconditionally_witness :
    ∃ d : UrlDiff,
      diff_url (fun _ => FetchResult.success "hi") (fun _ => Node.text "") "u"
          [("v", ⟨"o", "s"⟩)] "t" =
        .ok (cacheInsert [("v", ⟨"o", "s"⟩)] "u" ⟨"hi", "t"⟩, d)
      ∧ cacheLookup (cacheInsert [("v", ⟨"o", "s"⟩)] "u" ⟨"hi", "t"⟩) "u" = some ⟨"hi", "t"⟩
      ∧ ∀ u, u ≠ "u" →
          cacheLookup (cacheInsert [("v", ⟨"o", "s"⟩)] "u" ⟨"hi", "t"⟩) u
            = cacheLookup [("v", ⟨"o", "s"⟩)] u :=
  diff_url_updates_cache_unconditionally _ _ _ _ _ _ rfl

/-- C6: if the fetch of any URL in the batch fails, the whole cycle aborts
with that exception: `asyncio.gather` re-raises it out of `do_diff`, so no
`UrlDiff` is returned for any URL and the cache-persisting write on
line 147 never runs, even for URLs whose fetch succeeded. -/
theorem do_diff_fetch_failure_aborts_cycle (fetch : String → FetchResult)
    (parse : String → Node) (now : String) (urls : List String) (cache : Cache)
    (h : ∃ u ∈ urls, ∃ e, fetch u = .failure e) :
    ∃ e, do_diff fetch parse now urls cache = .error e := by
  revert h
  induction urls generalizing cache with
  | nil =>
    intro h
    obtain ⟨u, hu, _⟩ := h
    cases hu
  | cons u₀ rest ih =>
    intro h
    obtain ⟨u, hu, e, he⟩ := h
    rcases List.mem_cons.mp hu with rfl | hmem
    · refine ⟨e, ?_⟩
      simp only [do_diff, diff_url_failure fetch parse u cache now e he]
    · cases hfu : fetch u₀ with
      | failure e₀ =>
        refine ⟨e₀, ?_⟩
        simp only [do_diff, diff_url_failure fetch parse u₀ cache now e₀ hfu]
      | success body =>
        obtain ⟨e', he'⟩ := ih (cacheInsert cache u₀ ⟨body, now⟩) ⟨u, hmem, e, he⟩
        refine ⟨e', ?_⟩
        simp only [do_diff, diff_url_success fetch parse u₀ cache now body hfu, he']

theorem do_diff_fetch_failure_aborts_cycle_witness :
    (∃ u ∈ ["http://ok", "http://bad"], ∃ e,
        (fun v => if v = "http://bad" then FetchResult.failure FetchError.network
         else FetchResult.success "hi") u = FetchResult.failure e)
    ∧ ∃ e, do_diff
        (fun v => if v = "http://bad" then FetchResult.failure FetchError.network
         else FetchResult.success "hi")
        (fun _ => Node.text "") "t" ["http://ok", "http://bad"] [] = .error e :=
  ⟨⟨"http://bad", by decide, FetchError.network, by decide⟩,
   do_diff_fetch_failure_aborts_cycle _ _ _ _ _
     ⟨"http://bad", by decide, FetchError.network, by decide⟩⟩

/-- C7 (amended): the load step substitutes the empty mapping only when the
cache file is absent (`except FileNotFoundError`, lines 121-124); an
unreadable file or one whose text is not valid JSON raises an exception
that is not caught, failing the caller. -/
theorem load_cache_recovery_cases :
    loadCache .absent = .ok (Json.obj [])
    ∧ loadCache .unreadable = .error .osError
    ∧ loadCache .malformed = .error .jsonDecodeError
    ∧ ∀ j, loadCache (.validJson j) = .ok j :=
  ⟨rfl, rfl, rfl, fun _ => rfl⟩

/-- C7 counterexample: a malformed cache file makes the load step raise
`json.JSONDecodeError` (and an unreadable one raise an `OSError`) rather
than return the empty mapping, because line 123 catches only
`FileNotFoundError`. -/
theorem load_cache_malformed_counterexample :
    loadCache .malformed = .error .jsonDecodeError
    ∧ loadCache .malformed ≠ .ok (Json.obj [])
    ∧ loadCache .unreadable ≠ .ok (Json.obj []) :=
  ⟨rfl, fun h => Except.noConfusion h, fun h => Except.noConfusion h⟩

/-- C9: serializing a cache to the persisted JSON object (line 147) and
reading it back (line 122) restores the mapping exactly: the same URL keys
in the same order, each with identical content and timestamp. -/
theorem cache_persist_roundtrip (c : Cache) : decodeCache (encodeCache c) = some c := by
  have hlist : ∀ l : Cache,
      decodeEntries (l.map (fun kv => (kv.1, encodeCacheEntry kv.2))) = some l := by
    intro l
    induction l with
    | nil => rfl
    | cons kv rest ih =>
      obtain ⟨u, e⟩ := kv
      simp [decodeEntries, decode_encode_entry, ih]
  simp [encodeCache, decodeCache, hlist c]

/-- C8 (amended): for a URL with no prior cache entry whose fetch succeeds,
`diff_url` reports the `datetime.min` sentinel as `old_timestamp` and
stores the fetched content in the cache; and — provided the fetched content
does not parse to a document structurally equal to the empty document
(`BeautifulSoup('', ...)`, a childless `[document]` node) — the diff list
is exactly the one pair of the empty document and the fetched document. -/
theorem diff_url_first_sight (fetch : String → FetchResult) (parse : String → Node)
    (url : String) (cache : Cache) (now body : String)
    (hf : fetch url = .success body)
    (hc : cacheLookup cache url = none)
    (hparse : parse "" = Node.tag "[document]" [] [])
    (hne : parse body ≠ parse "") :
    diff_url fetch parse url cache now =
      .ok (cacheInsert cache url ⟨body, now⟩,
        { url := url
          differentiating_elements := [⟨parse "", parse body⟩]
          old_timestamp := datetimeMin
          new_timestamp := now })
    ∧ cacheLookup (cacheInsert cache url ⟨body, now⟩) url = some ⟨body, now⟩ := by
  have hcmp : compare_html (parse "") (parse body) = [⟨parse "", parse body⟩] := by
    apply compare_html_pair_of_no_child_diff (Ne.symm hne)
    rw [hparse]
    rfl
  refine ⟨?_, cacheLookup_insert_self cache url ⟨body, now⟩⟩
  rw [diff_url_success fetch parse url cache now body hf, hc]
  simp only [Option.map_none', Option.getD_none, hcmp]

theorem diff_url_first_sight_witness :
    diff_url (fun _ => FetchResult.success "<html></html>")
        (fun s => if s = "" then Node.tag "[document]" [] []
         else Node.tag "[document]" [] [Node.tag "html" [] []]) "u" [] "t" =
      .ok ([("u", ⟨"<html></html>", "t"⟩)],
        { url := "u"
          differentiating_elements := [⟨Node.tag "[document]" [] [],
            Node.tag "[document]" [] [Node.tag "html" [] []]⟩]
          old_timestamp := datetimeMin
          new_timestamp := "t" })
    ∧ cacheLookup [("u", ⟨"<html></html>", "t"⟩)] "u" = some ⟨"<html></html>", "t"⟩ :=
  diff_url_first_sight _ _ _ _ _ _ rfl rfl (by decide) (by decide)

/-- C8 counterexample: if the server returns an empty body for a URL with
no prior cache entry, both sides parse to the same empty document, the diff
list is empty rather than a single pair, so the claim's "exactly one pair"
does not hold for every successful first fetch. -/
theorem diff_url_first_sight_counterexample :
    diff_url (fun _ => FetchResult.success "")
        (fun _ => Node.tag "[document]" [] []) "u" [] "t" =
      .ok ([("u", ⟨"", "t"⟩)],
        { url := "u"
          differentiating_elements := []
          old_timestamp := datetimeMin
          new_timestamp := "t" })
    ∧ ([] : List DifferentiatingElement).length ≠ 1 := by
  refine ⟨?_, by decide⟩
  rw [diff_url_success (fun _ => FetchResult.success "") _ "u" [] "t" "" rfl]
  simp [cacheLookup, cacheInsert, compare_html_self]
